import Mathlib

/- Verification development for the TasteNet-MNL discrete-choice program
   (src/Data/phase8_tastenet_mnl.py).  The numeric code is shallowly embedded
   over exact reals; the training loop is embedded as a recursive function on
   an explicit state; tensor shape/broadcast behaviour of the forward pass is
   embedded as a separate shape-level semantics; the counterfactual engine's
   in-place tensor surgery is embedded against a small addressed heap. -/

set_option maxHeartbeats 1000000

/-- TasteNetMNL model parameters (source lines 76-95): demographic
coefficients beta with x_dim rows and n_alternatives - 1 columns,
infrastructure coefficients delta with z_dim rows and n_alternatives - 1
columns, and the TasteNet subnetwork.  The subnetwork (source lines 34-60) is
a feed-forward stack whose evaluation-mode semantics is a deterministic
row-wise function from one individual's demographic vector to the scalar
gamma; it is embedded as that function. -/
structure TasteNetMNL (J xDim zDim : ℕ) where
  beta : Fin xDim → Fin (J - 1) → ℝ
  delta : Fin zDim → Fin (J - 1) → ℝ
  tastenet : (Fin xDim → ℝ) → ℝ

/-- Prepending a zero column for the reference alternative:
torch.cat([torch.zeros(batch_size, 1), V], dim=1) at source lines 110 and 114.
Column 0 is zero; column j for j ≥ 1 is column j - 1 of the input. -/
def addRefColumn {b J : ℕ} (v : Fin b → Fin (J - 1) → ℝ) : Fin b → Fin J → ℝ :=
  fun i j =>
    if h : (j : ℕ) = 0 then 0
    else v i ⟨(j : ℕ) - 1, by have := j.isLt; omega⟩

/-- Demographic utility V_base = X @ beta with the zero reference column
prepended (source lines 109-110). -/
def V_base {J xDim zDim b : ℕ} (m : TasteNetMNL J xDim zDim)
    (X : Fin b → Fin xDim → ℝ) : Fin b → Fin J → ℝ :=
  addRefColumn fun i c => ∑ k, X i k * m.beta k c

/-- Infrastructure utility V_infra = Z @ delta with the zero reference column
prepended (source lines 113-114). -/
def V_infra {J xDim zDim b : ℕ} (m : TasteNetMNL J xDim zDim)
    (Z : Fin b → Fin zDim → ℝ) : Fin b → Fin J → ℝ :=
  addRefColumn fun i c => ∑ k, Z i k * m.delta k c

/-- Credit utility V_credit = gamma_i * credit_access * se_indicator
(source lines 117-120), with gamma_i = tastenet(X_i). -/
def V_credit {J xDim zDim b : ℕ} (m : TasteNetMNL J xDim zDim)
    (X : Fin b → Fin xDim → ℝ) (credit se : Fin b → Fin J → ℝ) :
    Fin b → Fin J → ℝ :=
  fun i j => m.tastenet (X i) * credit i j * se i j

/-- Total utility V = V_base + V_infra + V_credit (source line 123). -/
def utilities {J xDim zDim b : ℕ} (m : TasteNetMNL J xDim zDim)
    (X : Fin b → Fin xDim → ℝ) (Z : Fin b → Fin zDim → ℝ)
    (credit se : Fin b → Fin J → ℝ) : Fin b → Fin J → ℝ :=
  fun i j => V_base m X i j + V_infra m Z i j + V_credit m X credit se i j

/-- Row-wise maximum of a utility row, the stabilising shift used by
torch.log_softmax. -/
noncomputable def rowMax {J : ℕ} (v : Fin J → ℝ) : ℝ :=
  if h : 0 < J then Finset.univ.sup' ⟨⟨0, h⟩, Finset.mem_univ _⟩ v else 0

/-- torch.log_softmax(V, dim=1) (source line 126), embedded by its documented
numerically stable algorithm: subtract the row maximum, exponentiate, and
log-normalise. -/
noncomputable def logSoftmax {J : ℕ} (v : Fin J → ℝ) (j : Fin J) : ℝ :=
  (v j - rowMax v) - Real.log (∑ k, Real.exp (v k - rowMax v))

/-- TasteNetMNL.forward (source lines 97-128): returns the batch of
log-probability rows together with the per-individual gamma. -/
noncomputable def forward {J xDim zDim b : ℕ} (m : TasteNetMNL J xDim zDim)
    (X : Fin b → Fin xDim → ℝ) (Z : Fin b → Fin zDim → ℝ)
    (credit se : Fin b → Fin J → ℝ) :
    (Fin b → Fin J → ℝ) × (Fin b → ℝ) :=
  (fun i j => logSoftmax (fun k => utilities m X Z credit se i k) j,
   fun i => m.tastenet (X i))

/-- TasteNetMNL.predict_proba (source lines 130-134): exp of the
log-probabilities. -/
noncomputable def predict_proba {J xDim zDim b : ℕ} (m : TasteNetMNL J xDim zDim)
    (X : Fin b → Fin xDim → ℝ) (Z : Fin b → Fin zDim → ℝ)
    (credit se : Fin b → Fin J → ℝ) : Fin b → Fin J → ℝ :=
  fun i j => Real.exp ((forward m X Z credit se).1 i j)

/-- Self-employment alternative indices se_alts = [1, 4, 7]
(source line 262), as a subset of the J alternatives. -/
def se_alts (J : ℕ) : Finset (Fin J) :=
  Finset.univ.filter fun j => (j : ℕ) = 1 ∨ (j : ℕ) = 4 ∨ (j : ℕ) = 7

/-- Aggregate SE rate probs[:, se_alts].sum(dim=1).mean()
(source lines 263 and 271). -/
noncomputable def se_rate {b J : ℕ} (probs : Fin b → Fin J → ℝ) : ℝ :=
  (∑ i, ∑ j ∈ se_alts J, probs i j) / (b : ℝ)

/-- Counterfactual credit tensor (source lines 266-268): the clone of
credit_access with the branch columns branch_alts = [6, 7, 8] scaled by
1 - closure_rate. -/
noncomputable def credit_cf {b J : ℕ} (closure : ℝ)
    (credit : Fin b → Fin J → ℝ) : Fin b → Fin J → ℝ :=
  fun i j =>
    if (j : ℕ) = 6 ∨ (j : ℕ) = 7 ∨ (j : ℕ) = 8 then credit i j * (1 - closure)
    else credit i j

/-- Python floating division: raises ZeroDivisionError (here: none) when the
divisor is exactly zero, otherwise returns the quotient. -/
noncomputable def pydiv (x y : ℝ) : Option ℝ :=
  if y = 0 then none else some (x / y)

/-- counterfactual_analysis (source lines 250-280): baseline SE rate,
counterfactual SE rate under the scaled credit tensor, and the percent
change (cf - base) / base * 100, whose division raises when the baseline
rate is exactly zero. -/
noncomputable def counterfactual_analysis {J xDim zDim b : ℕ}
    (m : TasteNetMNL J xDim zDim) (X : Fin b → Fin xDim → ℝ)
    (Z : Fin b → Fin zDim → ℝ) (credit se : Fin b → Fin J → ℝ)
    (closure : ℝ) : Option (ℝ × ℝ × ℝ) :=
  (pydiv (se_rate (predict_proba m X Z (credit_cf closure credit) se) -
        se_rate (predict_proba m X Z credit se))
      (se_rate (predict_proba m X Z credit se))).map
    fun e =>
      (se_rate (predict_proba m X Z credit se),
       se_rate (predict_proba m X Z (credit_cf closure credit) se), e * 100)

/-- Addressed heap of batch × J tensors, used to embed the in-place tensor
operations of the counterfactual engine. -/
structure CreditHeap (b J : ℕ) where
  mem : ℕ → Fin b → Fin J → ℝ
  next : ℕ

/-- counterfactual_analysis with the credit tensor held on the heap
(source lines 259-273): the baseline probabilities are computed from the
caller's tensor at address aCredit; credit_cf = credit_access.clone()
allocates a fresh cell; credit_cf[:, branch_alts] *= (1 - closure_rate)
writes in place to that fresh cell only; the counterfactual probabilities
read the clone. The final heap is returned alongside the result. -/
noncomputable def counterfactual_analysis_heap {J xDim zDim b : ℕ}
    (m : TasteNetMNL J xDim zDim) (X : Fin b → Fin xDim → ℝ)
    (Z : Fin b → Fin zDim → ℝ) (h : CreditHeap b J) (aCredit : ℕ)
    (se : Fin b → Fin J → ℝ) (closure : ℝ) :
    Option (ℝ × ℝ × ℝ) × CreditHeap b J :=
  let rb := se_rate (predict_proba m X Z (h.mem aCredit) se)
  let aCf := h.next
  let h1 : CreditHeap b J :=
    ⟨Function.update h.mem aCf (h.mem aCredit), h.next + 1⟩
  let h2 : CreditHeap b J :=
    ⟨Function.update h1.mem aCf fun i j =>
        if (j : ℕ) = 6 ∨ (j : ℕ) = 7 ∨ (j : ℕ) = 8 then
          h1.mem aCf i j * (1 - closure)
        else h1.mem aCf i j,
      h1.next⟩
  let rcf := se_rate (predict_proba m X Z (h2.mem aCf) se)
  ((pydiv (rcf - rb) rb).map fun e => (rb, rcf, e * 100), h2)

/-- Training-loop state (source lines 149-150 plus the model parameters):
current parameters, best validation loss so far (initially float('inf'),
embedded as the top element), the checkpointed best parameters
(best_tastenet_mnl.pt; none while no checkpoint has been written), and the
patience counter. -/
structure TrainState (Θ α : Type) where
  params : Θ
  bestLoss : WithTop α
  bestCkpt : Option Θ
  patience : ℕ

/-- Result of a training run: a returned model, or an uncaught Python
exception (ZeroDivisionError from an empty loader, or a failed checkpoint
load). -/
inductive TrainResult (Θ : Type) where
  | ok : Θ → TrainResult Θ
  | error : TrainResult Θ

/-- Parameter trajectory: traj k is the parameter vector after k training
epochs, the epoch-indexed update step abstracting one full pass of
optimizer steps over the training loader (source lines 154-162, including
scheduler effects on later epochs). -/
def traj {Θ : Type} (step : ℕ → Θ → Θ) (init : Θ) : ℕ → Θ
  | 0 => init
  | n + 1 => step n (traj step init n)

/-- Mean validation loss val_loss / len(val_loader) (source lines 166-174),
with the per-batch criterion values abstracted as a list obtained from the
current parameters. -/
def vLoss {Θ α : Type} [LinearOrderedField α] (vbl : Θ → List α) (θ : Θ) : α :=
  (vbl θ).sum / ((vbl θ).length : α)

/-- Epoch loop of train_tastenet_mnl (source lines 152-190): each epoch
trains (advancing the parameters), divides the accumulated train loss by
len(train_loader) (raising ZeroDivisionError when that is zero), divides the
accumulated validation loss by len(val_loader) (likewise), then performs the
checkpoint / patience / early-stopping logic with patience threshold 20. -/
def trainLoop {Θ α : Type} [LinearOrderedField α] (step : ℕ → Θ → Θ)
    (nTrain : ℕ) (vbl : Θ → List α) :
    ℕ → ℕ → TrainState Θ α → Option (TrainState Θ α)
  | _, 0, s => some s
  | e, n + 1, s =>
    if nTrain = 0 then none
    else if vbl (step e s.params) = [] then none
    else if (↑(vLoss vbl (step e s.params)) : WithTop α) < s.bestLoss then
      trainLoop step nTrain vbl (e + 1) n
        ⟨step e s.params, ↑(vLoss vbl (step e s.params)),
          some (step e s.params), 0⟩
    else if 20 ≤ s.patience + 1 then
      some ⟨step e s.params, s.bestLoss, s.bestCkpt, s.patience + 1⟩
    else
      trainLoop step nTrain vbl (e + 1) n
        ⟨step e s.params, s.bestLoss, s.bestCkpt, s.patience + 1⟩

/-- train_tastenet_mnl (source lines 141-194): run the epoch loop from the
fresh state, then model.load_state_dict(torch.load('best_tastenet_mnl.pt')):
the returned model is the checkpointed one; a missing checkpoint or an
exception mid-run is an error. -/
def train_tastenet_mnl {Θ α : Type} [LinearOrderedField α] (step : ℕ → Θ → Θ)
    (nTrain : ℕ) (vbl : Θ → List α) (epochs : ℕ) (init : Θ) : TrainResult Θ :=
  match trainLoop step nTrain vbl 0 epochs ⟨init, ⊤, none, 0⟩ with
  | none => TrainResult.error
  | some s =>
    match s.bestCkpt with
    | none => TrainResult.error
    | some c => TrainResult.ok c

/-- Invariant of the epoch loop after m completed epochs with checkpoint
epoch j: the parameters are the m-th trajectory point, the checkpoint holds
the parameters of epoch j, which achieves the smallest validation loss among
the m epochs run so far and is the first epoch to do so (strictly below all
earlier epochs), and the patience counter equals the number m - j of epochs
since the checkpoint was written. -/
def TrainInv {Θ α : Type} [LinearOrderedField α] (step : ℕ → Θ → Θ)
    (vbl : Θ → List α) (init : Θ) (s : TrainState Θ α) (m j : ℕ) : Prop :=
  s.params = traj step init m ∧
  1 ≤ j ∧ j ≤ m ∧ s.bestCkpt = some (traj step init j) ∧
  s.bestLoss = (↑(vLoss vbl (traj step init j)) : WithTop α) ∧
  s.patience = m - j ∧
  (∀ i, 1 ≤ i → i ≤ m →
    vLoss vbl (traj step init j) ≤ vLoss vbl (traj step init i)) ∧
  (∀ i, 1 ≤ i → i < j →
    vLoss vbl (traj step init j) < vLoss vbl (traj step init i))

/-- Torch matmul shape rule for 2-D tensors. -/
def matmul_shape (p q : ℕ × ℕ) : Option (ℕ × ℕ) :=
  if p.2 = q.1 then some (p.1, q.2) else none

/-- Torch cat along dim=1: batch dimensions must agree exactly, columns add. -/
def cat_cols_shape (p q : ℕ × ℕ) : Option (ℕ × ℕ) :=
  if p.1 = q.1 then some (p.1, p.2 + q.2) else none

/-- Torch broadcast rule for one dimension: equal sizes, or either side 1. -/
def bdim (a c : ℕ) : Option ℕ :=
  if a = c then some a
  else if a = 1 then some c
  else if c = 1 then some a
  else none

/-- Torch broadcast rule for a binary elementwise op on 2-D tensors. -/
def bcast_shape (p q : ℕ × ℕ) : Option (ℕ × ℕ) :=
  match bdim p.1 q.1, bdim p.2 q.2 with
  | some r, some c => some (r, c)
  | _, _ => none

/-- Shape of the TasteNet stack applied to X (source lines 45-60): the first
Linear layer requires exactly xDim input features; the stack maps
[batch, xDim] to [batch, 1]. -/
def tastenet_shape (xDim : ℕ) (sX : ℕ × ℕ) : Option (ℕ × ℕ) :=
  if sX.2 = xDim then some (sX.1, 1) else none

/-- Shape-level semantics of TasteNetMNL.forward (source lines 106-128),
following the exact op order: X @ beta, cat zero column, Z @ delta, cat zero
column (both zero columns have X's batch size), tastenet(X),
(gamma * credit_access) * se_indicator, (V_base + V_infra) + V_credit,
log_softmax (shape preserving).  Returns the output shape, or none when any
torch op raises a shape error. -/
def forward_shape (J xDim zDim : ℕ) (sX sZ sC sS : ℕ × ℕ) : Option (ℕ × ℕ) :=
  (matmul_shape sX (xDim, J - 1)).bind fun vb0 =>
  (cat_cols_shape (sX.1, 1) vb0).bind fun vb =>
  (matmul_shape sZ (zDim, J - 1)).bind fun vi0 =>
  (cat_cols_shape (sX.1, 1) vi0).bind fun vi =>
  (tastenet_shape xDim sX).bind fun g =>
  (bcast_shape g sC).bind fun gc =>
  (bcast_shape gc sS).bind fun vc =>
  (bcast_shape vb vi).bind fun vbi =>
  (bcast_shape vbi vc).bind fun v =>
  some v

/-- Synthetic credit-access tensor of the demonstration setup
(source lines 313-316): 1.0 on branch alternatives 6-8, 0.3 on mobile
alternatives 3-5, 0.0 elsewhere. -/
noncomputable def creditSyn (b : ℕ) : Fin b → Fin 9 → ℝ :=
  fun _ j => if 6 ≤ (j : ℕ) then 1 else if 3 ≤ (j : ℕ) then 3 / 10 else 0

/-- Synthetic SE indicator of the demonstration setup (source lines 319-320):
1.0 on alternatives 1, 4, 7, else 0.0. -/
noncomputable def seSyn (b : ℕ) : Fin b → Fin 9 → ℝ :=
  fun _ j => if (j : ℕ) = 1 ∨ (j : ℕ) = 4 ∨ (j : ℕ) = 7 then 1 else 0

/-- The branch-and-SE alternative, index 7. -/
def alt7 : Fin 9 := ⟨7, by omega⟩

/-- Concrete model with zero linear coefficients and constant gamma = 1. -/
noncomputable def mPos : TasteNetMNL 9 5 2 :=
  ⟨fun _ _ => 0, fun _ _ => 0, fun _ => 1⟩

/-- Concrete model with zero linear coefficients and constant gamma = -1. -/
noncomputable def mNeg : TasteNetMNL 9 5 2 :=
  ⟨fun _ _ => 0, fun _ _ => 0, fun _ => -1⟩

/-- Concrete one-row demographic batch of zeros. -/
noncomputable def X1 : Fin 1 → Fin 5 → ℝ := fun _ _ => 0

/-- Concrete one-row infrastructure batch of zeros. -/
noncomputable def Z1 : Fin 1 → Fin 2 → ℝ := fun _ _ => 0

/-- Concrete one-row tensor of ones over the 9 alternatives. -/
noncomputable def ones1 : Fin 1 → Fin 9 → ℝ := fun _ _ => 1

/-- Concrete one-row tensor of zeros over the 9 alternatives. -/
noncomputable def zeros1 : Fin 1 → Fin 9 → ℝ := fun _ _ => 0

/-- Concrete demographic batch of zeros for the 10000-individual synthetic
setup. -/
noncomputable def Xsyn : Fin 10000 → Fin 5 → ℝ := fun _ _ => 0

/-- Concrete infrastructure batch of zeros for the 10000-individual synthetic
setup. -/
noncomputable def Zsyn : Fin 10000 → Fin 2 → ℝ := fun _ _ => 0

/-- Concrete parameter-update step for trainer witnesses. -/
def stepW : ℕ → ℕ → ℕ := fun _ n => n + 1

/-- Concrete per-batch validation losses (a single zero-loss batch) for
trainer witnesses. -/
def vblW : ℕ → List ℚ := fun _ => [0]

/-- Concrete empty validation loader for the degenerate-loader witness. -/
def vblEmpty : ℕ → List ℚ := fun _ => []

/-- Concrete one-cell heap whose address 0 holds the all-zero credit tensor. -/
noncomputable def heapW : CreditHeap 1 9 := ⟨fun _ _ _ => 0, 1⟩

/-- The sum of exponentials over a nonempty utility row is positive. -/
lemma sumExpPos {J : ℕ} (hJ : 0 < J) (v : Fin J → ℝ) :
    0 < ∑ k, Real.exp (v k) :=
  Finset.sum_pos (fun k _ => Real.exp_pos _) ⟨⟨0, hJ⟩, Finset.mem_univ _⟩

/-- The stabilised log-softmax equals the naive log-normalisation on a
nonempty row: the row-maximum shift cancels exactly. -/
lemma logSoftmax_eq {J : ℕ} (hJ : 0 < J) (v : Fin J → ℝ) (j : Fin J) :
    logSoftmax v j = v j - Real.log (∑ k, Real.exp (v k)) := by
  have hS : 0 < ∑ k, Real.exp (v k) := sumExpPos hJ v
  unfold logSoftmax
  rw [Finset.sum_congr rfl fun k _ => Real.exp_sub (v k) (rowMax v),
    ← Finset.sum_div,
    Real.log_div (ne_of_gt hS) (Real.exp_ne_zero _), Real.log_exp]
  ring

/-- Exponentiated log-softmax is the softmax quotient. -/
lemma exp_logSoftmax {J : ℕ} (hJ : 0 < J) (v : Fin J → ℝ) (j : Fin J) :
    Real.exp (logSoftmax v j) = Real.exp (v j) / ∑ k, Real.exp (v k) := by
  rw [logSoftmax_eq hJ, Real.exp_sub, Real.exp_log (sumExpPos hJ v)]

/-- The exponentials of a log-softmax row sum to one. -/
lemma sum_exp_logSoftmax {J : ℕ} (hJ : 0 < J) (v : Fin J → ℝ) :
    ∑ j, Real.exp (logSoftmax v j) = 1 := by
  rw [Finset.sum_congr rfl fun j _ => exp_logSoftmax hJ v j,
    ← Finset.sum_div, div_self (ne_of_gt (sumExpPos hJ v))]

/-- C1: for every accepted batch and every individual row, the
log-probabilities returned by forward are the row utilities minus the
log-sum-exp of the row (so the stabilised computation agrees exactly with
the log-normalisation), and the exponentials of the returned
log-probabilities sum to 1 across the J alternatives. -/
theorem C1_forward_log_probs_normalized (J xDim zDim b : ℕ) (hJ : 0 < J)
    (m : TasteNetMNL J xDim zDim) (X : Fin b → Fin xDim → ℝ)
    (Z : Fin b → Fin zDim → ℝ) (credit se : Fin b → Fin J → ℝ) (i : Fin b) :
    (∀ j, (forward m X Z credit se).1 i j =
        utilities m X Z credit se i j -
          Real.log (∑ k, Real.exp (utilities m X Z credit se i k))) ∧
    ∑ j, Real.exp ((forward m X Z credit se).1 i j) = 1 := by
  constructor
  · intro j
    exact logSoftmax_eq hJ (fun k => utilities m X Z credit se i k) j
  · exact sum_exp_logSoftmax hJ (fun k => utilities m X Z credit se i k)

/-- C1 witness: at the concrete zero-parameter model on a one-row batch, the
exponentials of the returned log-probabilities sum to 1. -/
theorem C1_witness :
    ∑ j, Real.exp ((forward mPos X1 Z1 ones1 zeros1).1 0 j) = 1 :=
  (C1_forward_log_probs_normalized 9 5 2 1 (by norm_num) mPos X1 Z1 ones1
    zeros1 0).2

/-- C2: inside forward, the total utility of alternative j decomposes as the
demographic and infrastructure terms plus the credit term
gamma(X_i) * credit_access[j] * se_indicator[j]; whenever the SE indicator
of alternative j is zero, the credit term vanishes and the utility reduces
to the base and infrastructure terms, for every value of gamma. -/
theorem C2_credit_term_zero_without_se (J xDim zDim b : ℕ)
    (m : TasteNetMNL J xDim zDim) (X : Fin b → Fin xDim → ℝ)
    (Z : Fin b → Fin zDim → ℝ) (credit se : Fin b → Fin J → ℝ)
    (i : Fin b) (j : Fin J) :
    utilities m X Z credit se i j =
      V_base m X i j + V_infra m Z i j +
        m.tastenet (X i) * credit i j * se i j ∧
    (se i j = 0 →
      V_credit m X credit se i j = 0 ∧
      utilities m X Z credit se i j = V_base m X i j + V_infra m Z i j) := by
  refine ⟨rfl, fun h => ?_⟩
  have hz : V_credit m X credit se i j = 0 := by
    unfold V_credit
    rw [h, mul_zero]
  refine ⟨hz, ?_⟩
  unfold utilities
  rw [hz, add_zero]

/-- C2 witness: with an all-zero SE indicator the credit term vanishes at the
concrete model. -/
theorem C2_witness :
    V_credit mPos X1 ones1 zeros1 0 0 = 0 ∧
    utilities mPos X1 Z1 ones1 zeros1 0 0 =
      V_base mPos X1 0 0 + V_infra mPos Z1 0 0 :=
  (C2_credit_term_zero_without_se 9 5 2 1 mPos X1 Z1 ones1 zeros1 0 0).2 rfl

/-- Zero is prepended at column 0 by addRefColumn. -/
lemma addRefColumn_zero {b J : ℕ} (v : Fin b → Fin (J - 1) → ℝ) (i : Fin b)
    (hJ : 0 < J) : addRefColumn v i ⟨0, hJ⟩ = 0 := by
  unfold addRefColumn
  rw [dif_pos rfl]

/-- C4 counterexample: the claim asserts the total utility of alternative 0
is 0 for every accepted batch, but with zero linear coefficients, constant
gamma = 1, and inputs whose credit_access and se_indicator are 1 at
alternative 0, forward accepts the batch and the total utility of
alternative 0 is 1, not 0. -/
theorem C4_counterexample : utilities mPos X1 Z1 ones1 ones1 0 0 ≠ 0 := by
  have h0 : utilities mPos X1 Z1 ones1 ones1 0 0 = 1 := by
    show V_base mPos X1 0 0 + V_infra mPos Z1 0 0 +
      V_credit mPos X1 ones1 ones1 0 0 = 1
    have hb : V_base mPos X1 0 0 = 0 := addRefColumn_zero _ 0 (by norm_num)
    have hi : V_infra mPos Z1 0 0 = 0 := addRefColumn_zero _ 0 (by norm_num)
    rw [hb, hi]
    show 0 + 0 + mPos.tastenet (X1 0) * ones1 0 0 * ones1 0 0 = 1
    norm_num [mPos, ones1]
  rw [h0]
  norm_num

/-- C4 (amended): alternative 0 receives exactly zero contribution from the
demographic and infrastructure linear terms (the prepended zero columns), so
its total utility equals its credit term alone, and is 0 for every individual
whenever the SE indicator of alternative 0 is zero. -/
theorem C4_reference_alternative_pinned (J xDim zDim b : ℕ) (hJ : 0 < J)
    (m : TasteNetMNL J xDim zDim) (X : Fin b → Fin xDim → ℝ)
    (Z : Fin b → Fin zDim → ℝ) (credit se : Fin b → Fin J → ℝ) (i : Fin b) :
    V_base m X i ⟨0, hJ⟩ = 0 ∧ V_infra m Z i ⟨0, hJ⟩ = 0 ∧
    utilities m X Z credit se i ⟨0, hJ⟩ =
      m.tastenet (X i) * credit i ⟨0, hJ⟩ * se i ⟨0, hJ⟩ ∧
    (se i ⟨0, hJ⟩ = 0 → utilities m X Z credit se i ⟨0, hJ⟩ = 0) := by
  have hb : V_base m X i ⟨0, hJ⟩ = 0 := addRefColumn_zero _ i hJ
  have hi : V_infra m Z i ⟨0, hJ⟩ = 0 := addRefColumn_zero _ i hJ
  have hu : utilities m X Z credit se i ⟨0, hJ⟩ =
      m.tastenet (X i) * credit i ⟨0, hJ⟩ * se i ⟨0, hJ⟩ := by
    unfold utilities
    rw [hb, hi]
    show 0 + 0 + V_credit m X credit se i ⟨0, hJ⟩ = _
    rw [zero_add, zero_add]
    rfl
  refine ⟨hb, hi, hu, fun h => ?_⟩
  rw [hu, h, mul_zero]

/-- C4 witness: the amended statement at the concrete model with an SE
indicator vanishing at alternative 0. -/
theorem C4_witness :
    V_base mPos X1 0 ⟨0, by norm_num⟩ = 0 ∧
    V_infra mPos Z1 0 ⟨0, by norm_num⟩ = 0 ∧
    utilities mPos X1 Z1 ones1 zeros1 0 ⟨0, by norm_num⟩ =
      mPos.tastenet (X1 0) * ones1 0 ⟨0, by norm_num⟩ *
        zeros1 0 ⟨0, by norm_num⟩ ∧
    (zeros1 0 ⟨0, by norm_num⟩ = 0 →
      utilities mPos X1 Z1 ones1 zeros1 0 ⟨0, by norm_num⟩ = 0) :=
  C4_reference_alternative_pinned 9 5 2 1 (by norm_num) mPos X1 Z1 ones1
    zeros1 0

/-- Positivity of the SE rate: with a nonempty batch and at least the first
SE alternative present, every softmax probability is positive, so the mean
SE probability mass is positive. -/
lemma se_rate_pos {J xDim zDim b : ℕ} (hb : 0 < b) (hJ : 2 ≤ J)
    (m : TasteNetMNL J xDim zDim) (X : Fin b → Fin xDim → ℝ)
    (Z : Fin b → Fin zDim → ℝ) (credit se : Fin b → Fin J → ℝ) :
    0 < se_rate (predict_proba m X Z credit se) := by
  unfold se_rate
  apply div_pos
  · apply Finset.sum_pos _ ⟨⟨0, by omega⟩, Finset.mem_univ _⟩
    intro i _
    apply Finset.sum_pos
    · intro j _
      exact Real.exp_pos _
    · refine ⟨⟨1, by omega⟩, ?_⟩
      simp [se_alts]
  · exact_mod_cast hb

/-- When the baseline SE rate is nonzero, counterfactual_analysis returns the
pair of rates and the percent change. -/
lemma cfa_eq_some {J xDim zDim b : ℕ} (m : TasteNetMNL J xDim zDim)
    (X : Fin b → Fin xDim → ℝ) (Z : Fin b → Fin zDim → ℝ)
    (credit se : Fin b → Fin J → ℝ) (closure : ℝ)
    (hrb : se_rate (predict_proba m X Z credit se) ≠ 0) :
    counterfactual_analysis m X Z credit se closure =
      some (se_rate (predict_proba m X Z credit se),
        se_rate (predict_proba m X Z (credit_cf closure credit) se),
        (se_rate (predict_proba m X Z (credit_cf closure credit) se) -
            se_rate (predict_proba m X Z credit se)) /
            se_rate (predict_proba m X Z credit se) * 100) := by
  unfold counterfactual_analysis pydiv
  rw [if_neg hrb]
  rfl

/-- C5: the counterfactual credit tensor agrees with the baseline off the
branch columns 6, 7, 8 and scales those columns by 1 - closure_rate, so with
closure_rate = 1 the branch entries become exactly 0, with closure_rate = 0
the tensor is unchanged, and the engine then returns equal baseline and
counterfactual SE rates (and a zero percent change). -/
theorem C5_counterfactual_tensor (J xDim zDim b : ℕ)
    (m : TasteNetMNL J xDim zDim) (X : Fin b → Fin xDim → ℝ)
    (Z : Fin b → Fin zDim → ℝ) (credit se : Fin b → Fin J → ℝ)
    (closure : ℝ) :
    (∀ (i : Fin b) (j : Fin J), ¬((j : ℕ) = 6 ∨ (j : ℕ) = 7 ∨ (j : ℕ) = 8) →
      credit_cf closure credit i j = credit i j) ∧
    (∀ (i : Fin b) (j : Fin J), ((j : ℕ) = 6 ∨ (j : ℕ) = 7 ∨ (j : ℕ) = 8) →
      credit_cf 1 credit i j = 0) ∧
    credit_cf 0 credit = credit ∧
    (0 < b → 2 ≤ J → ∃ r, counterfactual_analysis m X Z credit se 0 =
      some (r, r, 0)) := by
  have hid : credit_cf 0 credit = credit := by
    funext i j
    unfold credit_cf
    split
    · rw [sub_zero, mul_one]
    · rfl
  refine ⟨fun i j h => ?_, fun i j h => ?_, hid, fun hb hJ => ?_⟩
  · unfold credit_cf
    rw [if_neg h]
  · unfold credit_cf
    rw [if_pos h, sub_self, mul_zero]
  · have hrb := se_rate_pos hb hJ m X Z credit se
    refine ⟨se_rate (predict_proba m X Z credit se), ?_⟩
    rw [cfa_eq_some m X Z credit se 0 (ne_of_gt hrb), hid, sub_self,
      zero_div, zero_mul]

/-- C5 witness: the concrete model on a one-row batch with the synthetic
credit tensor: a non-branch column is unchanged, closure_rate = 1 zeroes a
branch column, and closure_rate = 0 returns equal rates. -/
theorem C5_witness :
    credit_cf (37 : ℝ) ones1 0 0 = ones1 0 0 ∧
    credit_cf 1 ones1 0 ⟨6, by norm_num⟩ = 0 ∧
    ∃ r, counterfactual_analysis mPos X1 Z1 ones1 zeros1 0 = some (r, r, 0) := by
  obtain ⟨h1, h2, _, h4⟩ :=
    C5_counterfactual_tensor 9 5 2 1 mPos X1 Z1 ones1 zeros1 37
  exact ⟨h1 0 0 (by norm_num), h2 0 ⟨6, by norm_num⟩ (by norm_num),
    h4 (by norm_num) (by norm_num)⟩

/-- C9: the percent-change division fails explicitly (Python raises
ZeroDivisionError, embedded as none) whenever its divisor is exactly zero,
so a zero baseline SE rate makes counterfactual_analysis fail rather than
return infinity or NaN; moreover, in exact arithmetic the baseline SE rate
of a nonempty batch with at least two alternatives is strictly positive, so
the engine in fact returns the rates with a positive baseline. -/
theorem C9_zero_baseline_fails_explicitly (J xDim zDim b : ℕ)
    (m : TasteNetMNL J xDim zDim) (X : Fin b → Fin xDim → ℝ)
    (Z : Fin b → Fin zDim → ℝ) (credit se : Fin b → Fin J → ℝ)
    (closure : ℝ) :
    (∀ x : ℝ, pydiv x 0 = none) ∧
    (se_rate (predict_proba m X Z credit se) = 0 →
      counterfactual_analysis m X Z credit se closure = none) ∧
    (0 < b → 2 ≤ J →
      ∃ rb rcf e, counterfactual_analysis m X Z credit se closure =
          some (rb, rcf, e) ∧ 0 < rb) := by
  have hnone : ∀ x : ℝ, pydiv x 0 = none := by
    intro x
    unfold pydiv
    rw [if_pos rfl]
  refine ⟨hnone, fun h => ?_, fun hb hJ => ?_⟩
  · unfold counterfactual_analysis
    rw [h, hnone]
    rfl
  · have hrb := se_rate_pos hb hJ m X Z credit se
    exact ⟨_, _, _, cfa_eq_some m X Z credit se closure (ne_of_gt hrb), hrb⟩

/-- C9 witness: Python division by an exactly-zero divisor errors, and at the
concrete model the engine returns rates with a positive baseline. -/
theorem C9_witness :
    pydiv 5 0 = none ∧
    ∃ rb rcf e, counterfactual_analysis mPos X1 Z1 ones1 zeros1 (1 / 2) =
        some (rb, rcf, e) ∧ 0 < rb := by
  obtain ⟨h1, _, h3⟩ :=
    C9_zero_baseline_fails_explicitly 9 5 2 1 mPos X1 Z1 ones1 zeros1 (1 / 2)
  exact ⟨h1 5, h3 (by norm_num) (by norm_num)⟩

/-- The SE probability mass of a log-softmax row is the quotient of the SE
exponential mass by the total exponential mass. -/
lemma se_row_sum {J : ℕ} (hJ : 0 < J) (v : Fin J → ℝ) :
    ∑ j ∈ se_alts J, Real.exp (logSoftmax v j) =
      (∑ j ∈ se_alts J, Real.exp (v j)) / ∑ j, Real.exp (v j) := by
  rw [Finset.sum_congr rfl fun j _ => exp_logSoftmax hJ v j, ← Finset.sum_div]

/-- Strict monotonicity of the per-row SE share in the utility of
alternative 7: lowering only V[7] strictly lowers the softmax probability
mass on the SE alternatives 1, 4, 7. -/
lemma seShare_lt_of_alt7_lt (v w : Fin 9 → ℝ)
    (hEq : ∀ j : Fin 9, j ≠ alt7 → w j = v j) (hLt : w alt7 < v alt7) :
    (∑ j ∈ se_alts 9, Real.exp (w j)) / (∑ j, Real.exp (w j)) <
      (∑ j ∈ se_alts 9, Real.exp (v j)) / (∑ j, Real.exp (v j)) := by
  have h7se : alt7 ∈ se_alts 9 := by decide
  have hAw : ∑ j ∈ (se_alts 9).erase alt7, Real.exp (w j) =
      ∑ j ∈ (se_alts 9).erase alt7, Real.exp (v j) :=
    Finset.sum_congr rfl fun j hj => by rw [hEq j (Finset.mem_erase.1 hj).1]
  have hDw : ∑ j ∈ (Finset.univ : Finset (Fin 9)).erase alt7, Real.exp (w j) =
      ∑ j ∈ (Finset.univ : Finset (Fin 9)).erase alt7, Real.exp (v j) :=
    Finset.sum_congr rfl fun j hj => by rw [hEq j (Finset.mem_erase.1 hj).1]
  have hnv : ∑ j ∈ se_alts 9, Real.exp (v j) =
      Real.exp (v alt7) + ∑ j ∈ (se_alts 9).erase alt7, Real.exp (v j) :=
    (Finset.add_sum_erase _ _ h7se).symm
  have hnw : ∑ j ∈ se_alts 9, Real.exp (w j) =
      Real.exp (w alt7) + ∑ j ∈ (se_alts 9).erase alt7, Real.exp (v j) := by
    rw [← hAw]
    exact (Finset.add_sum_erase _ _ h7se).symm
  have hdv : ∑ j, Real.exp (v j) =
      Real.exp (v alt7) +
        ∑ j ∈ (Finset.univ : Finset (Fin 9)).erase alt7, Real.exp (v j) :=
    (Finset.add_sum_erase _ _ (Finset.mem_univ _)).symm
  have hdw : ∑ j, Real.exp (w j) =
      Real.exp (w alt7) +
        ∑ j ∈ (Finset.univ : Finset (Fin 9)).erase alt7, Real.exp (v j) := by
    rw [← hDw]
    exact (Finset.add_sum_erase _ _ (Finset.mem_univ _)).symm
  have hApos : 0 < ∑ j ∈ (se_alts 9).erase alt7, Real.exp (v j) := by
    refine Finset.sum_pos (fun j _ => Real.exp_pos _) ⟨1, ?_⟩
    decide
  have hAD : ∑ j ∈ (se_alts 9).erase alt7, Real.exp (v j) <
      ∑ j ∈ (Finset.univ : Finset (Fin 9)).erase alt7, Real.exp (v j) := by
    refine Finset.sum_lt_sum_of_subset
      (Finset.erase_subset_erase _ (Finset.filter_subset _ _))
      (i := (0 : Fin 9)) (by decide) (by decide) (Real.exp_pos _)
      fun j _ _ => (Real.exp_pos _).le
  have htt : Real.exp (w alt7) < Real.exp (v alt7) := Real.exp_lt_exp.2 hLt
  have ht' : 0 < Real.exp (w alt7) := Real.exp_pos _
  have ht : 0 < Real.exp (v alt7) := Real.exp_pos _
  rw [hnv, hnw, hdv, hdw, div_lt_div_iff (by positivity) (by positivity)]
  nlinarith [mul_lt_mul_of_pos_right hAD (sub_pos.mpr htt)]

/-- Off alternative 7, the 50%-closure counterfactual leaves the total
utilities of the synthetic setup unchanged: non-branch columns keep their
credit access, and branch alternatives 6 and 8 are not SE alternatives, so
their scaled credit is annihilated by the SE indicator. -/
lemma cf_utilities_off_alt7 {b : ℕ} (m9 : TasteNetMNL 9 5 2)
    (X : Fin b → Fin 5 → ℝ) (Z : Fin b → Fin 2 → ℝ) (i : Fin b) (j : Fin 9)
    (hj : j ≠ alt7) :
    utilities m9 X Z (credit_cf (1 / 2) (creditSyn b)) (seSyn b) i j =
      utilities m9 X Z (creditSyn b) (seSyn b) i j := by
  have hc : V_credit m9 X (credit_cf (1 / 2) (creditSyn b)) (seSyn b) i j =
      V_credit m9 X (creditSyn b) (seSyn b) i j := by
    unfold V_credit credit_cf creditSyn seSyn
    fin_cases j <;> simp_all [alt7] <;> norm_num
  unfold utilities
  rw [hc]

/-- At alternative 7 (branch and SE, synthetic credit 1.0), the 50%-closure
counterfactual lowers the total utility by exactly half the individual
gamma. -/
lemma cf_utilities_at_alt7 {b : ℕ} (m9 : TasteNetMNL 9 5 2)
    (X : Fin b → Fin 5 → ℝ) (Z : Fin b → Fin 2 → ℝ) (i : Fin b) :
    utilities m9 X Z (credit_cf (1 / 2) (creditSyn b)) (seSyn b) i alt7 =
      utilities m9 X Z (creditSyn b) (seSyn b) i alt7 -
        m9.tastenet (X i) / 2 := by
  unfold utilities V_credit credit_cf creditSyn seSyn alt7
  norm_num
  ring

/-- The SE rate of predicted probabilities is the batch mean of the per-row
SE shares. -/
lemma se_rate_predict {J xDim zDim b : ℕ} (hJ : 0 < J)
    (m : TasteNetMNL J xDim zDim) (X : Fin b → Fin xDim → ℝ)
    (Z : Fin b → Fin zDim → ℝ) (credit se : Fin b → Fin J → ℝ) :
    se_rate (predict_proba m X Z credit se) =
      (∑ i, (∑ j ∈ se_alts J, Real.exp (utilities m X Z credit se i j)) /
          ∑ j, Real.exp (utilities m X Z credit se i j)) / (b : ℝ) := by
  unfold se_rate
  congr 1
  exact Finset.sum_congr rfl fun i _ => se_row_sum hJ _

/-- On the synthetic setup with everywhere-positive gamma, the 50%-closure
counterfactual SE rate is strictly below the baseline SE rate. -/
lemma synthetic_cf_lt {b : ℕ} (hb : 0 < b) (m9 : TasteNetMNL 9 5 2)
    (X : Fin b → Fin 5 → ℝ) (Z : Fin b → Fin 2 → ℝ)
    (hγ : ∀ i, 0 < m9.tastenet (X i)) :
    se_rate (predict_proba m9 X Z (credit_cf (1 / 2) (creditSyn b)) (seSyn b)) <
      se_rate (predict_proba m9 X Z (creditSyn b) (seSyn b)) := by
  have hbR : 0 < (b : ℝ) := by exact_mod_cast hb
  rw [se_rate_predict (by norm_num) m9 X Z (credit_cf (1 / 2) (creditSyn b))
      (seSyn b),
    se_rate_predict (by norm_num) m9 X Z (creditSyn b) (seSyn b),
    div_lt_div_iff hbR hbR]
  refine mul_lt_mul_of_pos_right ?_ hbR
  refine Finset.sum_lt_sum_of_nonempty ⟨⟨0, hb⟩, Finset.mem_univ _⟩ fun i _ => ?_
  refine seShare_lt_of_alt7_lt _ _ (fun j hj => cf_utilities_off_alt7 m9 X Z i j hj) ?_
  rw [cf_utilities_at_alt7 m9 X Z i]
  exact sub_lt_self _ (half_pos (hγ i))

/-- On the synthetic setup with everywhere-negative gamma, the 50%-closure
counterfactual SE rate is strictly above the baseline SE rate. -/
lemma synthetic_cf_gt {b : ℕ} (hb : 0 < b) (m9 : TasteNetMNL 9 5 2)
    (X : Fin b → Fin 5 → ℝ) (Z : Fin b → Fin 2 → ℝ)
    (hγ : ∀ i, m9.tastenet (X i) < 0) :
    se_rate (predict_proba m9 X Z (creditSyn b) (seSyn b)) <
      se_rate (predict_proba m9 X Z (credit_cf (1 / 2) (creditSyn b)) (seSyn b)) := by
  have hbR : 0 < (b : ℝ) := by exact_mod_cast hb
  rw [se_rate_predict (by norm_num) m9 X Z (credit_cf (1 / 2) (creditSyn b))
      (seSyn b),
    se_rate_predict (by norm_num) m9 X Z (creditSyn b) (seSyn b),
    div_lt_div_iff hbR hbR]
  refine mul_lt_mul_of_pos_right ?_ hbR
  refine Finset.sum_lt_sum_of_nonempty ⟨⟨0, hb⟩, Finset.mem_univ _⟩ fun i _ => ?_
  refine seShare_lt_of_alt7_lt _ _
    (fun j hj => (cf_utilities_off_alt7 m9 X Z i j hj).symm) ?_
  rw [cf_utilities_at_alt7 m9 X Z i]
  have := hγ i
  linarith

/-- C6 counterexample: at the fixed model with constant gamma = -1 on the
synthetic setup (10000 individuals, 5 demographic features, 2 infrastructure
features, 9 alternatives, credit tiers 1.0/0.3/0.0, SE indices 1, 4, 7), the
counterfactual SE rate at closure_rate = 0.5 is strictly ABOVE the baseline
SE rate, falsifying the claim that it is at most the baseline for any fixed
model. -/
theorem C6_counterexample :
    ∃ rb rcf e,
      counterfactual_analysis mNeg Xsyn Zsyn (creditSyn 10000) (seSyn 10000)
          (1 / 2) = some (rb, rcf, e) ∧ rb < rcf := by
  have hb : 0 < 10000 := by norm_num
  have hrb := se_rate_pos hb (by norm_num) mNeg Xsyn Zsyn (creditSyn 10000)
    (seSyn 10000)
  refine ⟨_, _, _,
    cfa_eq_some mNeg Xsyn Zsyn (creditSyn 10000) (seSyn 10000) (1 / 2)
      (ne_of_gt hrb), ?_⟩
  refine synthetic_cf_gt hb mNeg Xsyn Zsyn fun i => ?_
  show (-1 : ℝ) < 0
  norm_num

/-- C6 (amended): for any fixed model the per-individual gamma returned by
forward is a function of X alone, unaffected by any perturbation of the
credit_access input; and on the synthetic setup, whenever the learned gamma
is strictly positive for every individual, the counterfactual SE rate at
closure_rate = 0.5 is strictly below the baseline SE rate (so the two rates
differ); for models with negative gamma the inequality reverses, so the
positivity condition is necessary. -/
theorem C6_gamma_invariance_and_closure_effect :
    (∀ (J xDim zDim b : ℕ) (m : TasteNetMNL J xDim zDim)
        (X : Fin b → Fin xDim → ℝ) (Z : Fin b → Fin zDim → ℝ)
        (credit credit' se : Fin b → Fin J → ℝ),
      (forward m X Z credit se).2 = (forward m X Z credit' se).2) ∧
    (∀ (b : ℕ) (m9 : TasteNetMNL 9 5 2) (X : Fin b → Fin 5 → ℝ)
        (Z : Fin b → Fin 2 → ℝ), 0 < b → (∀ i, 0 < m9.tastenet (X i)) →
      ∃ rb rcf e,
        counterfactual_analysis m9 X Z (creditSyn b) (seSyn b) (1 / 2) =
            some (rb, rcf, e) ∧ rcf < rb) := by
  constructor
  · intro J xDim zDim b m X Z credit credit' se
    rfl
  · intro b m9 X Z hb hγ
    have hrb := se_rate_pos hb (by norm_num) m9 X Z (creditSyn b) (seSyn b)
    exact ⟨_, _, _,
      cfa_eq_some m9 X Z (creditSyn b) (seSyn b) (1 / 2) (ne_of_gt hrb),
      synthetic_cf_lt hb m9 X Z hγ⟩

/-- C6 witness: the amended statement instantiated at the concrete
constant-gamma-1 model on a one-row synthetic batch. -/
theorem C6_witness :
    ∃ rb rcf e,
      counterfactual_analysis mPos X1 Z1 (creditSyn 1) (seSyn 1) (1 / 2) =
          some (rb, rcf, e) ∧ rcf < rb := by
  refine (C6_gamma_invariance_and_closure_effect).2 1 mPos X1 Z1 (by norm_num)
    fun i => ?_
  show (0 : ℝ) < 1
  norm_num

/-- A Z batch size different from X's always fails: torch.cat never
broadcasts its batch dimension. -/
lemma forward_shape_zbatch_none (J xDim zDim : ℕ) (sX sC sS : ℕ × ℕ)
    (bz cz : ℕ) (hbz : bz ≠ sX.1) :
    forward_shape J xDim zDim sX (bz, cz) sC sS = none := by
  have hbz' : ¬(sX.1 = bz) := fun h => hbz h.symm
  by_cases c1 : sX.2 = xDim <;> by_cases c2 : cz = zDim <;>
    simp [forward_shape, matmul_shape, cat_cols_shape, c1, c2, hbz']

/-- With equal batch sizes, matching feature widths and exactly J columns,
the forward pass succeeds with output shape [batch, J]. -/
lemma forward_shape_success (J xDim zDim bx : ℕ) (hJ : 1 ≤ J) :
    forward_shape J xDim zDim (bx, xDim) (bx, zDim) (bx, J) (bx, J) =
      some (bx, J) := by
  obtain ⟨n, rfl⟩ : ∃ n, J = n + 1 := ⟨J - 1, by omega⟩
  by_cases h0 : n = 0
  · subst h0
    simp [forward_shape, matmul_shape, cat_cols_shape, tastenet_shape,
      bcast_shape, bdim]
  · have h1 : ¬(1 = n + 1) := by omega
    simp [forward_shape, matmul_shape, cat_cols_shape, tastenet_shape,
      bcast_shape, bdim, h1, Nat.add_comm]

/-- With equal batch sizes but a credit_access column count that is neither
J nor the broadcastable 1, the elementwise multiply against the J-column SE
indicator fails. -/
lemma forward_shape_badcols (J xDim zDim bx cc : ℕ) (hJ : 2 ≤ J)
    (hcc1 : cc ≠ 1) (hccJ : cc ≠ J) :
    forward_shape J xDim zDim (bx, xDim) (bx, zDim) (bx, cc) (bx, J) =
      none := by
  have h1c : ¬(1 = cc) := fun h => hcc1 h.symm
  have hJ1 : ¬(J = 1) := by omega
  simp [forward_shape, matmul_shape, cat_cols_shape, tastenet_shape,
    bcast_shape, bdim, h1c, hcc1, hccJ, hJ1]

/-- C7 counterexample: the claim asserts forward fails whenever batch sizes
disagree or credit_access does not have exactly J columns, but torch
broadcasting accepts a credit_access with batch size 1 against a batch of 2,
and a credit_access with a single column, silently producing a [2, 9]
output in both cases. -/
theorem C7_counterexample :
    forward_shape 9 5 2 (2, 5) (2, 2) (1, 9) (2, 9) = some (2, 9) ∧
    forward_shape 9 5 2 (2, 5) (2, 2) (2, 1) (2, 9) = some (2, 9) := by
  constructor <;> rfl

/-- C7 (amended): forward raises a shape error for every non-broadcastable
mismatch — a Z batch size differing from X's always errors, and with equal
batch sizes a credit_access column count outside {1, J} errors — and with
equal batch sizes, matching feature widths, and exactly J columns it
succeeds with a [batch, J] output; however, size-1 batch or column
dimensions follow torch broadcasting and are accepted silently. -/
theorem C7_shape_error_behaviour (J xDim zDim : ℕ) (sX sC sS : ℕ × ℕ)
    (bz cz bx cc : ℕ) :
    (bz ≠ sX.1 → forward_shape J xDim zDim sX (bz, cz) sC sS = none) ∧
    (1 ≤ J → forward_shape J xDim zDim (bx, xDim) (bx, zDim) (bx, J) (bx, J) =
      some (bx, J)) ∧
    (2 ≤ J → cc ≠ 1 → cc ≠ J →
      forward_shape J xDim zDim (bx, xDim) (bx, zDim) (bx, cc) (bx, J) =
        none) :=
  ⟨fun h => forward_shape_zbatch_none J xDim zDim sX sC sS bz cz h,
   fun h => forward_shape_success J xDim zDim bx h,
   fun h h1 h2 => forward_shape_badcols J xDim zDim bx cc h h1 h2⟩

/-- C7 witness: concrete instances of the three amended behaviours. -/
theorem C7_witness :
    forward_shape 9 5 2 (3, 5) (4, 2) (3, 9) (3, 9) = none ∧
    forward_shape 9 5 2 (3, 5) (3, 2) (3, 9) (3, 9) = some (3, 9) ∧
    forward_shape 9 5 2 (3, 5) (3, 2) (3, 4) (3, 9) = none := by
  obtain ⟨a, b, c⟩ :=
    C7_shape_error_behaviour 9 5 2 (3, 5) (3, 9) (3, 9) 4 2 3 4
  exact ⟨a (by decide), b (by decide), c (by decide) (by decide) (by decide)⟩

/-- C10: the counterfactual engine perturbs only the fresh clone of the
credit tensor: after counterfactual_analysis_heap runs, the caller's credit
tensor at its heap address is unchanged (the in-place scaling writes only to
the freshly allocated clone cell), and the returned result is exactly the
pure counterfactual_analysis of the untouched model parameters and caller
tensors — the baseline rate reads the original tensor, the counterfactual
rate reads the scaled clone. -/
theorem C10_engine_does_not_mutate_inputs (J xDim zDim b : ℕ)
    (m : TasteNetMNL J xDim zDim) (X : Fin b → Fin xDim → ℝ)
    (Z : Fin b → Fin zDim → ℝ) (h : CreditHeap b J) (aCredit : ℕ)
    (se : Fin b → Fin J → ℝ) (closure : ℝ) (hA : aCredit < h.next) :
    (counterfactual_analysis_heap m X Z h aCredit se closure).2.mem aCredit =
      h.mem aCredit ∧
    (counterfactual_analysis_heap m X Z h aCredit se closure).1 =
      counterfactual_analysis m X Z (h.mem aCredit) se closure := by
  have hne : aCredit ≠ h.next := ne_of_lt hA
  unfold counterfactual_analysis_heap
  simp only [Function.update_idem, Function.update_same,
    Function.update_noteq hne]
  unfold counterfactual_analysis credit_cf
  exact ⟨trivial, rfl⟩

/-- C10 witness: the one-cell heap holding the all-zero credit tensor at
address 0 is unchanged at that address and the engine agrees with the pure
computation. -/
theorem C10_witness :
    (counterfactual_analysis_heap mPos X1 Z1 heapW 0 zeros1 (1 / 2)).2.mem 0 =
      heapW.mem 0 ∧
    (counterfactual_analysis_heap mPos X1 Z1 heapW 0 zeros1 (1 / 2)).1 =
      counterfactual_analysis mPos X1 Z1 (heapW.mem 0) zeros1 (1 / 2) :=
  C10_engine_does_not_mutate_inputs 9 5 2 1 mPos X1 Z1 heapW 0 zeros1 (1 / 2)
    (by norm_num [heapW])

/-- One-step unfolding of the epoch loop. -/
lemma trainLoop_succ {Θ α : Type} [LinearOrderedField α] (step : ℕ → Θ → Θ)
    (nTrain : ℕ) (vbl : Θ → List α) (e n : ℕ) (s : TrainState Θ α) :
    trainLoop step nTrain vbl e (n + 1) s =
      if nTrain = 0 then none
      else if vbl (step e s.params) = [] then none
      else if (↑(vLoss vbl (step e s.params)) : WithTop α) < s.bestLoss then
        trainLoop step nTrain vbl (e + 1) n
          ⟨step e s.params, ↑(vLoss vbl (step e s.params)),
            some (step e s.params), 0⟩
      else if 20 ≤ s.patience + 1 then
        some ⟨step e s.params, s.bestLoss, s.bestCkpt, s.patience + 1⟩
      else
        trainLoop step nTrain vbl (e + 1) n
          ⟨step e s.params, s.bestLoss, s.bestCkpt, s.patience + 1⟩ := rfl

/-- The epoch-loop invariant is preserved: running n further epochs from a
state satisfying the invariant after m epochs with checkpoint j (and the
patience counter still below the stopping threshold) succeeds and yields a
state satisfying the invariant after m' epochs with checkpoint j', where
either all n epochs were exhausted or early stopping fired exactly 20
epochs after the final checkpoint. -/
lemma trainLoop_inv {Θ α : Type} [LinearOrderedField α] (step : ℕ → Θ → Θ)
    (nTrain : ℕ) (vbl : Θ → List α) (init : Θ) (hT : nTrain ≠ 0)
    (hV : ∀ θ, vbl θ ≠ []) :
    ∀ (n m j : ℕ) (s : TrainState Θ α), TrainInv step vbl init s m j →
      m - j ≤ 19 →
      ∃ m' j' s', m ≤ m' ∧ m' ≤ m + n ∧
        trainLoop step nTrain vbl m n s = some s' ∧
        TrainInv step vbl init s' m' j' ∧
        (m' = m + n ∨ m' = j' + 20) := by
  intro n
  induction n with
  | zero =>
    intro m j s hs hb
    exact ⟨m, j, s, le_refl m, by omega, rfl, hs, Or.inl (by omega)⟩
  | succ n ih =>
    intro m j s hs hb
    obtain ⟨hparams, hj1, hjm, hckpt, hloss, hpat, hmin, hfirst⟩ := hs
    rw [trainLoop_succ, if_neg hT, if_neg (hV _)]
    have hptraj : step m s.params = traj step init (m + 1) := by
      rw [hparams]
      rfl
    by_cases hlt :
        (↑(vLoss vbl (step m s.params)) : WithTop α) < s.bestLoss
    · rw [if_pos hlt]
      have hlt' : vLoss vbl (traj step init (m + 1)) <
          vLoss vbl (traj step init j) := by
        rw [← hptraj]
        rw [hloss] at hlt
        exact_mod_cast hlt
      have hinv1 : TrainInv step vbl init
          ⟨step m s.params, ↑(vLoss vbl (step m s.params)),
            some (step m s.params), 0⟩ (m + 1) (m + 1) := by
        refine ⟨hptraj, by omega, le_refl _, by rw [hptraj],
          by rw [hptraj], by show (0 : ℕ) = m + 1 - (m + 1); omega, ?_, ?_⟩
        · intro i hi1 him
          rcases Nat.lt_or_ge i (m + 1) with hl | hg
          · exact le_of_lt (lt_of_lt_of_le hlt' (hmin i hi1 (by omega)))
          · have hieq : i = m + 1 := by omega
            subst hieq
            exact le_refl _
        · intro i hi1 hil
          exact lt_of_lt_of_le hlt' (hmin i hi1 (by omega))
      obtain ⟨m', j', s', h1, h2, h3, h4, h5⟩ :=
        ih (m + 1) (m + 1) _ hinv1 (by omega)
      exact ⟨m', j', s', by omega, by omega, h3, h4, by omega⟩
    · rw [if_neg hlt]
      have hge : vLoss vbl (traj step init j) ≤
          vLoss vbl (traj step init (m + 1)) := by
        rw [← hptraj]
        have hle := not_lt.mp hlt
        rw [hloss] at hle
        exact_mod_cast hle
      have hinv2 : ∀ pc, pc = m + 1 - j → TrainInv step vbl init
          ⟨step m s.params, s.bestLoss, s.bestCkpt, pc⟩ (m + 1) j := by
        intro pc hpc
        refine ⟨hptraj, hj1, by omega, hckpt, hloss, hpc, ?_, hfirst⟩
        intro i hi1 him
        rcases Nat.lt_or_ge i (m + 1) with hl | hg
        · exact hmin i hi1 (by omega)
        · have hieq : i = m + 1 := by omega
          subst hieq
          exact hge
      by_cases hpatc : 20 ≤ s.patience + 1
      · rw [if_pos hpatc]
        refine ⟨m + 1, j, _, by omega, by omega, rfl,
          hinv2 (s.patience + 1) ?_, Or.inr ?_⟩
        · omega
        · omega
      · rw [if_neg hpatc]
        obtain ⟨m', j', s', h1, h2, h3, h4, h5⟩ :=
          ih (m + 1) j _ (hinv2 (s.patience + 1) (by omega)) (by omega)
        exact ⟨m', j', s', by omega, by omega, h3, h4, by omega⟩

/-- C3: for every terminating run (epoch budget or early stopping) with at
least one epoch, a nonempty training loader and a nonempty validation
loader, the trainer returns exactly the parameters of the best-validation
checkpoint over the E epochs actually run: the returned parameters are
those of an epoch k ≤ E whose validation loss is minimal among all epochs
1..E and strictly below every earlier epoch's loss (the first achiever,
i.e. the checkpoint — so never a non-best final epoch), where E is the
full epoch budget unless early stopping fired, in which case E is exactly
20 epochs after the checkpoint; consequently the checkpointed loss is
never worse than epoch 0's validation loss, and if no later epoch ever
improves on epoch 0's loss the returned parameters are precisely
epoch 0's. -/
theorem C3_trainer_restores_best_checkpoint {Θ α : Type}
    [LinearOrderedField α] (step : ℕ → Θ → Θ) (nTrain : ℕ)
    (vbl : Θ → List α) (epochs : ℕ) (init : Θ) (hE : 1 ≤ epochs)
    (hT : nTrain ≠ 0) (hV : ∀ θ, vbl θ ≠ []) :
    ∃ c E k,
      train_tastenet_mnl step nTrain vbl epochs init = TrainResult.ok c ∧
      1 ≤ k ∧ k ≤ E ∧ E ≤ epochs ∧ c = traj step init k ∧
      (∀ i, 1 ≤ i → i ≤ E → vLoss vbl c ≤ vLoss vbl (traj step init i)) ∧
      (∀ i, 1 ≤ i → i < k → vLoss vbl c < vLoss vbl (traj step init i)) ∧
      (E = epochs ∨ E = k + 20) ∧
      vLoss vbl c ≤ vLoss vbl (traj step init 1) ∧
      ((∀ i, 2 ≤ i → i ≤ epochs →
          vLoss vbl (traj step init 1) ≤ vLoss vbl (traj step init i)) →
        c = traj step init 1) := by
  obtain ⟨N, rfl⟩ : ∃ N, epochs = N + 1 := ⟨epochs - 1, by omega⟩
  have hs1 : TrainInv step vbl init
      ⟨step 0 init, ↑(vLoss vbl (step 0 init)), some (step 0 init), 0⟩
      1 1 := by
    refine ⟨rfl, le_refl 1, le_refl 1, rfl, rfl, rfl, ?_, ?_⟩
    · intro i hi1 hile
      have hieq : i = 1 := by omega
      subst hieq
      exact le_refl _
    · intro i hi1 hil
      exact ((by omega : False)).elim
  have hrun : trainLoop step nTrain vbl 0 (N + 1)
      ⟨init, ⊤, none, 0⟩ =
      trainLoop step nTrain vbl 1 N
        ⟨step 0 init, ↑(vLoss vbl (step 0 init)), some (step 0 init), 0⟩ := by
    rw [trainLoop_succ, if_neg hT, if_neg (hV _),
      if_pos (WithTop.coe_lt_top (vLoss vbl (step 0 init)))]
  obtain ⟨m', j, s', hm1, hm2, hloop, hinv, hdis⟩ :=
    trainLoop_inv step nTrain vbl init hT hV N 1 1 _ hs1 (by omega)
  obtain ⟨hparams, hj1, hjm, hckpt, hloss, hpat, hmin, hfirst⟩ := hinv
  refine ⟨traj step init j, m', j, ?_, hj1, hjm, by omega, rfl, ?_, ?_, ?_,
    ?_, ?_⟩
  · simp only [train_tastenet_mnl, hrun, hloop, hckpt]
  · exact fun i hi1 hiE => hmin i hi1 hiE
  · exact fun i hi1 hik => hfirst i hi1 hik
  · rcases hdis with h | h
    · exact Or.inl (by omega)
    · exact Or.inr h
  · exact hmin 1 (le_refl 1) (by omega)
  · intro himp
    rcases Nat.eq_or_lt_of_le hj1 with he | hj2
    · rw [← he]
    · exfalso
      have h1 := hfirst 1 (le_refl 1) hj2
      have h2 := himp j (by omega) (by omega)
      exact absurd h1 (not_lt.mpr h2)

/-- C3 witness: a concrete three-epoch run over natural-number parameters
with rational losses. -/
theorem C3_witness :
    ∃ c E k, train_tastenet_mnl stepW 1 vblW 3 0 = TrainResult.ok c ∧
      1 ≤ k ∧ k ≤ E ∧ E ≤ 3 ∧ c = traj stepW 0 k ∧
      (∀ i, 1 ≤ i → i ≤ E → vLoss vblW c ≤ vLoss vblW (traj stepW 0 i)) ∧
      (∀ i, 1 ≤ i → i < k → vLoss vblW c < vLoss vblW (traj stepW 0 i)) ∧
      (E = 3 ∨ E = k + 20) ∧
      vLoss vblW c ≤ vLoss vblW (traj stepW 0 1) ∧
      ((∀ i, 2 ≤ i → i ≤ 3 →
          vLoss vblW (traj stepW 0 1) ≤ vLoss vblW (traj stepW 0 i)) →
        c = traj stepW 0 1) :=
  C3_trainer_restores_best_checkpoint stepW 1 vblW 3 0 (by norm_num)
    (by norm_num) fun θ => by simp [vblW]

/-- C8: when the validation loader yields zero batches, the very first
epoch's division val_loss / len(val_loader) divides by zero, which raises
in Python, so the trainer aborts with an error rather than returning any
model. -/
theorem C8_empty_validation_loader_errors {Θ α : Type}
    [LinearOrderedField α] (step : ℕ → Θ → Θ) (nTrain : ℕ)
    (vbl : Θ → List α) (epochs : ℕ) (init : Θ) (hE : 1 ≤ epochs)
    (hV : vbl (step 0 init) = []) :
    train_tastenet_mnl step nTrain vbl epochs init = TrainResult.error := by
  obtain ⟨N, rfl⟩ : ∃ N, epochs = N + 1 := ⟨epochs - 1, by omega⟩
  unfold train_tastenet_mnl
  rw [trainLoop_succ]
  by_cases hT : nTrain = 0 <;> simp [hT, hV]

/-- C8 witness: a concrete one-epoch run with an empty validation loader
errors. -/
theorem C8_witness :
    train_tastenet_mnl stepW 1 vblEmpty 1 0 = TrainResult.error :=
  C8_empty_validation_loader_errors stepW 1 vblEmpty 1 0 (by norm_num) rfl
